import Mathlib

/-!
Verification of the `absl::DenseSet` container (`absl/container/dense_set.h`).

`DenseSet<T, C, A>` is an ordered set stored as a sorted, duplicate-free
`std::vector<T, A>` together with a comparator object `comp_ : C`.  We model
the vector contents as a `List α`, iterators as indices (`Nat`, with the
value `elements.length` playing the role of `end()`), the comparator object
as an abstract value `comp_ : C` that is run through a fixed interpretation
`cmpApp : C → α → α → Bool` (mirroring the C++ call `comp_(x, y)`), and the
allocator as an abstract value `alloc : A`.  Elements are modelled as pure
values, so "moving" an element leaves the source value unchanged, as it does
for the trivially copyable element types the repository instantiates.
-/

namespace Absl

variable {α C A : Type}

/-- Model of `std::lower_bound(first, last, key, comp)` by its standard
postcondition on a partitioned range: the first index whose element does not
compare less than `key`. -/
def lowerBound (lt : α → α → Bool) (key : α) : List α → Nat
  | [] => 0
  | x :: xs => if lt x key then lowerBound lt key xs + 1 else 0

/-- Model of `std::upper_bound(first, last, key, comp)`: the first index whose
element compares greater than `key`. -/
def upperBound (lt : α → α → Bool) (key : α) : List α → Nat
  | [] => 0
  | x :: xs => if lt key x then 0 else upperBound lt key xs + 1

/-- Model of `std::binary_search(first, last, key, comp)`: take the lower
bound and report whether it is a dereferenceable position whose element is not
greater than `key`. -/
def binarySearch (lt : α → α → Bool) (key : α) (xs : List α) : Bool :=
  let pos := lowerBound lt key xs
  decide (pos < xs.length) && !(lt key (xs.getD pos key))

/-- The state of a `DenseSet<T, C, A>`: the elements of the underlying
`std::vector` base, the comparator member `comp_`, and the vector's
allocator. -/
structure DenseSet (α C A : Type) where
  elements : List α
  comp_ : C
  alloc : A
  deriving DecidableEq

namespace DenseSet

variable (cmpApp : C → α → α → Bool) (defaultC : C) (defaultA : A)

/-- `DenseSet::size()`. -/
def size (s : DenseSet α C A) : Nat := s.elements.length

/-- `DenseSet::empty()`. -/
def empty (s : DenseSet α C A) : Bool := s.elements.isEmpty

/-- `DenseSet::lower_bound(key)`: `std::lower_bound(begin(), end(), key, comp_)`. -/
def lower_bound (s : DenseSet α C A) (key : α) : Nat :=
  lowerBound (cmpApp s.comp_) key s.elements

/-- `DenseSet::upper_bound(key)`: `std::upper_bound(begin(), end(), key, comp_)`. -/
def upper_bound (s : DenseSet α C A) (key : α) : Nat :=
  upperBound (cmpApp s.comp_) key s.elements

/-- `DenseSet::equal_range(key)`: the pair `{lower_bound(key), upper_bound(key)}`. -/
def equal_range (s : DenseSet α C A) (key : α) : Nat × Nat :=
  (lower_bound cmpApp s key, upper_bound cmpApp s key)

/-- `DenseSet::contains(key)`: `std::binary_search(begin(), end(), key, comp_)`. -/
def contains (s : DenseSet α C A) (key : α) : Bool :=
  binarySearch (cmpApp s.comp_) key s.elements

/-- `DenseSet::count(key)`: `contains(key) ? 1 : 0`. -/
def count (s : DenseSet α C A) (key : α) : Nat :=
  if contains cmpApp s key then 1 else 0

/-- `DenseSet::find(key)`: `pos = lower_bound(key)`; yield `end()` when
`pos == end() || comp_(key, *pos)`, and `pos` otherwise. -/
def find (s : DenseSet α C A) (key : α) : Nat :=
  let pos := lowerBound (cmpApp s.comp_) key s.elements
  if pos == s.elements.length || cmpApp s.comp_ key (s.elements.getD pos key)
  then s.elements.length else pos

/-- `DenseSet::insert(value)`: `pos = lower_bound(value)`; when
`pos == end() || comp_(value, *pos)` splice the value at `pos` and report
`(pos, true)`, otherwise report `(pos, false)` without mutating.  The first
component is the updated set. -/
def insert (s : DenseSet α C A) (v : α) : DenseSet α C A × (Nat × Bool) :=
  let pos := lowerBound (cmpApp s.comp_) v s.elements
  if pos == s.elements.length || cmpApp s.comp_ v (s.elements.getD pos v)
  then ({ s with elements := s.elements.insertIdx pos v }, (pos, true))
  else (s, (pos, false))

/-- `DenseSet::emplace(args...)`: constructs the value and forwards to the
plain `insert`. -/
def emplace (s : DenseSet α C A) (v : α) : DenseSet α C A × (Nat × Bool) :=
  insert cmpApp s v

/-- Hinted `DenseSet::insert(pos, value)`.  When empty, insert at `begin()`.
When the hint is `end()`, append if `comp_(back(), value)` and otherwise fall
back to the plain insert.  Otherwise narrow `std::lower_bound` to
`[begin(), pos)` when `comp_(value, *pos)` and to `[pos, end())` when not,
then insert there when absent.  Yields the updated set and the returned
iterator. -/
def insertHint (s : DenseSet α C A) (pos : Nat) (v : α) : DenseSet α C A × Nat :=
  if s.elements.isEmpty then ({ s with elements := [v] }, 0)
  else if pos == s.elements.length then
    if cmpApp s.comp_ (s.elements.getLast?.getD v) v then
      ({ s with elements := s.elements ++ [v] }, s.elements.length)
    else
      let r := insert cmpApp s v
      (r.1, r.2.1)
  else
    let pos1 :=
      if cmpApp s.comp_ v (s.elements.getD pos v) then
        lowerBound (cmpApp s.comp_) v (s.elements.take pos)
      else
        pos + lowerBound (cmpApp s.comp_) v (s.elements.drop pos)
    if pos1 == s.elements.length || cmpApp s.comp_ v (s.elements.getD pos1 v)
    then ({ s with elements := s.elements.insertIdx pos1 v }, pos1)
    else (s, pos1)

/-- Range `DenseSet::insert(first, last)`: reserve (a capacity effect with no
observable counterpart here), then repeatedly apply the single-element
insert. -/
def insertRange (s : DenseSet α C A) (vs : List α) : DenseSet α C A :=
  vs.foldl (fun t v => (insert cmpApp t v).1) s

/-- `DenseSet::insert(initializer_list)`: delegates to the range insert. -/
def insertList (s : DenseSet α C A) (vs : List α) : DenseSet α C A :=
  insertRange cmpApp s vs

/-- `DenseSet::erase(key)`: `pos = lower_bound(key)`; when
`pos == end() || comp_(key, *pos)` report `0` without mutating, otherwise
remove the element at `pos` and report `1`. -/
def eraseKey (s : DenseSet α C A) (key : α) : DenseSet α C A × Nat :=
  let pos := lowerBound (cmpApp s.comp_) key s.elements
  if pos == s.elements.length || cmpApp s.comp_ key (s.elements.getD pos key)
  then (s, 0)
  else ({ s with elements := s.elements.eraseIdx pos }, 1)

/-- `DenseSet::erase(pos)`: `Base::erase(pos)` removes the element at the
iterator and yields the iterator to the element that followed it, which is
the same index. -/
def erasePos (s : DenseSet α C A) (pos : Nat) : DenseSet α C A × Nat :=
  ({ s with elements := s.elements.eraseIdx pos }, pos)

/-- `DenseSet::erase(first, last)`: removes the half-open index range and
yields the iterator to the element following the removed range.  The C++
precondition that `[first, last)` is a valid range of the container is
`first ≤ last`. -/
def eraseRange (s : DenseSet α C A) (first last : Nat) : DenseSet α C A × Nat :=
  ({ s with elements := s.elements.take first ++ s.elements.drop last }, first)

/-- `DenseSet::clear()`. -/
def clear (s : DenseSet α C A) : DenseSet α C A :=
  { s with elements := [] }

/-- Member `DenseSet::swap(other)`: `Base::swap` exchanges the two element
buffers, then `std::swap(comp_, other.comp_)` exchanges the comparators.
Allocators are not exchanged (the non-propagating policy of the default
allocator).  Yields the post-state of `*this` and of `other`. -/
def memberSwap (a b : DenseSet α C A) : DenseSet α C A × DenseSet α C A :=
  ({ a with elements := b.elements, comp_ := b.comp_ },
   { b with elements := a.elements, comp_ := a.comp_ })

/-- Free `swap(lhs, rhs)` friend: its body is only `Base::swap(lhs, rhs)`,
exchanging the element buffers; the comparators are not touched. -/
def freeSwap (a b : DenseSet α C A) : DenseSet α C A × DenseSet α C A :=
  ({ a with elements := b.elements }, { b with elements := a.elements })

/-- `operator==`: `absl::equal` over the two ordered sequences — equal
lengths and element-wise `==` (modelled as equality of the modelled
values). -/
def dsEq [DecidableEq α] (a b : DenseSet α C A) : Bool :=
  a.elements.length == b.elements.length &&
    (a.elements.zip b.elements).all fun p => decide (p.1 = p.2)

/-- Move-with-allocator constructor `DenseSet(DenseSet&&, alloc)`:
`Base(std::move(other), alloc)` steals the buffer when `alloc` equals the
source allocator and otherwise move-constructs the elements one by one,
leaving the source vector with its (for value types, unchanged) elements;
then `std::swap(comp_, other.comp_)` with `comp_` freshly default-initialized
by its member initializer.  Yields the constructed set and the post-state of
`other`. -/
def moveCtorAlloc [DecidableEq A] (other : DenseSet α C A) (al : A) :
    DenseSet α C A × DenseSet α C A :=
  (⟨other.elements, other.comp_, al⟩,
   ⟨if al = other.alloc then [] else other.elements, defaultC, other.alloc⟩)

/-- Plain move constructor `DenseSet(DenseSet&&)`: delegates to the
move-with-allocator form with a default-constructed allocator, then its own
body runs `std::swap(comp_, other.comp_)` a second time. -/
def moveCtor [DecidableEq A] (other : DenseSet α C A) :
    DenseSet α C A × DenseSet α C A :=
  let r := moveCtorAlloc defaultC other defaultA
  (⟨r.1.elements, r.2.comp_, r.1.alloc⟩, ⟨r.2.elements, r.1.comp_, r.2.alloc⟩)

/-- Defaulted move assignment `operator=(DenseSet&&)`: member-wise move.  The
vector move assignment transfers the buffer (the allocator inherited from
`std::allocator` propagates on move assignment), leaving the source vector
empty; the comparator is move-assigned, which for the value-semantics
comparators of this repository leaves the source comparator unchanged.
Yields the post-state of the target and of the source. -/
def moveAssign (_target other : DenseSet α C A) :
    DenseSet α C A × DenseSet α C A :=
  (⟨other.elements, other.comp_, other.alloc⟩,
   ⟨[], other.comp_, other.alloc⟩)

/-- A public mutation of a `DenseSet`: the insert forms (plain, hinted,
range, initializer sequence, emplace) and the erase forms (by key, by
iterator, by iterator range).  An erase-range argument is encoded as a start
index and a length so that it ranges exactly over the valid iterator ranges
`first ≤ last` required by the C++ precondition. -/
inductive SetOp (α : Type) where
  | insertVal (v : α)
  | insertHinted (hint : Nat) (v : α)
  | insertRanged (vs : List α)
  | insertListed (vs : List α)
  | emplaceVal (v : α)
  | eraseKeyed (k : α)
  | erasePositioned (p : Nat)
  | eraseRanged (first len : Nat)

/-- Run one public mutation, keeping the resulting set. -/
def applyOp (s : DenseSet α C A) : SetOp α → DenseSet α C A
  | .insertVal v => (insert cmpApp s v).1
  | .insertHinted h v => (insertHint cmpApp s h v).1
  | .insertRanged vs => insertRange cmpApp s vs
  | .insertListed vs => insertList cmpApp s vs
  | .emplaceVal v => (emplace cmpApp s v).1
  | .eraseKeyed k => (eraseKey cmpApp s k).1
  | .erasePositioned p => (erasePos s p).1
  | .eraseRanged first len => (eraseRange s first (first + len)).1

/-- Run a sequence of public mutations. -/
def applyOps (s : DenseSet α C A) (ops : List (SetOp α)) : DenseSet α C A :=
  ops.foldl (applyOp cmpApp) s

/-- A constructed `DenseSet`: every constructor form of the header either
starts from an empty buffer and runs the range insert over its inputs, or
copies/moves/swaps an already-constructed buffer.  This is the range form,
with comparator `c` and allocator `al`. -/
def construct (c : C) (al : A) (init : List α) : DenseSet α C A :=
  insertRange cmpApp ⟨[], c, al⟩ init

end DenseSet

/-- Invariant I1: the element sequence is strictly ordered ascending by the
comparator — every adjacent pair compares less. -/
abbrev Ordered (lt : α → α → Bool) (xs : List α) : Prop :=
  List.Chain' (fun a b => lt a b = true) xs

/-! Basic facts about the `std::lower_bound` / `std::upper_bound` models. -/

theorem lowerBound_le_length (lt : α → α → Bool) (v : α) :
    ∀ xs : List α, lowerBound lt v xs ≤ xs.length := by
  intro xs
  induction xs with
  | nil => simp [lowerBound]
  | cons x xs ih =>
    simp only [lowerBound, List.length_cons]
    split
    · omega
    · omega

theorem lt_of_lt_lowerBound (lt : α → α → Bool) (v d : α) :
    ∀ (xs : List α) (i : Nat), i < lowerBound lt v xs → lt (xs.getD i d) v = true := by
  intro xs
  induction xs with
  | nil => intro i h; simp [lowerBound] at h
  | cons x xs ih =>
    intro i h
    simp only [lowerBound] at h
    split at h
    · cases i with
      | zero => simpa using ‹lt x v = true›
      | succ i => simpa using ih i (by omega)
    · omega

theorem lowerBound_not_lt (lt : α → α → Bool) (v d : α) :
    ∀ xs : List α, lowerBound lt v xs < xs.length →
      lt (xs.getD (lowerBound lt v xs) d) v = false := by
  intro xs
  induction xs with
  | nil => intro h; simp [lowerBound] at h
  | cons x xs ih =>
    intro h
    by_cases hx : lt x v = true
    · simp only [lowerBound, hx, if_true, List.length_cons] at h ⊢
      simpa using ih (by omega)
    · simp only [lowerBound, hx, if_false]
      simpa using hx

theorem lowerBound_append (lt : α → α → Bool) (v : α) :
    ∀ xs ys : List α,
      lowerBound lt v (xs ++ ys) =
        if lowerBound lt v xs = xs.length then xs.length + lowerBound lt v ys
        else lowerBound lt v xs := by
  intro xs ys
  induction xs with
  | nil => simp [lowerBound]
  | cons x xs ih =>
    by_cases hx : lt x v = true
    · have h1 : lowerBound lt v (x :: (xs ++ ys)) = lowerBound lt v (xs ++ ys) + 1 := by
        simp [lowerBound, hx]
      have h2 : lowerBound lt v (x :: xs) = lowerBound lt v xs + 1 := by
        simp [lowerBound, hx]
      rw [List.cons_append, h1, ih, h2, List.length_cons]
      by_cases h3 : lowerBound lt v xs = xs.length
      · rw [if_pos h3, if_pos (by omega)]
        omega
      · rw [if_neg h3, if_neg (by omega)]
    · have h1 : lowerBound lt v (x :: (xs ++ ys)) = 0 := by
        simp [lowerBound, hx]
      have h2 : lowerBound lt v (x :: xs) = 0 := by
        simp [lowerBound, hx]
      rw [List.cons_append, h1, h2, List.length_cons, if_neg (by omega)]

theorem lowerBound_eq_length (lt : α → α → Bool) (v : α) :
    ∀ xs : List α, (∀ i, i < xs.length → lt (xs.getD i v) v = true) →
      lowerBound lt v xs = xs.length := by
  intro xs
  induction xs with
  | nil => simp [lowerBound]
  | cons x xs ih =>
    intro h
    have hx : lt x v = true := by simpa using h 0 (by simp)
    have hxs := ih fun i hi => by simpa using h (i + 1) (by simpa using hi)
    simp only [lowerBound, hx, if_true, List.length_cons]
    omega

theorem upperBound_le_length (lt : α → α → Bool) (v : α) :
    ∀ xs : List α, upperBound lt v xs ≤ xs.length := by
  intro xs
  induction xs with
  | nil => simp [upperBound]
  | cons x xs ih =>
    simp only [upperBound, List.length_cons]
    split
    · omega
    · omega

theorem not_lt_of_lt_upperBound (lt : α → α → Bool) (v d : α) :
    ∀ (xs : List α) (i : Nat), i < upperBound lt v xs → lt v (xs.getD i d) = false := by
  intro xs
  induction xs with
  | nil => intro i h; simp [upperBound] at h
  | cons x xs ih =>
    intro i h
    simp only [upperBound] at h
    split at h
    · omega
    · cases i with
      | zero => simpa using ‹¬lt v x = true›
      | succ i => simpa using ih i (by omega)

theorem upperBound_lt (lt : α → α → Bool) (v d : α) :
    ∀ xs : List α, upperBound lt v xs < xs.length →
      lt v (xs.getD (upperBound lt v xs) d) = true := by
  intro xs
  induction xs with
  | nil => intro h; simp [upperBound] at h
  | cons x xs ih =>
    intro h
    by_cases hx : lt v x = true
    · simp only [upperBound, hx, if_true]
      simpa using hx
    · have h2 : upperBound lt v (x :: xs) = upperBound lt v xs + 1 := by
        simp [upperBound, hx]
      rw [h2] at h ⊢
      rw [List.length_cons] at h
      simpa using ih (by omega)

/-! Facts about `getD` over `take`, `drop` and `insertIdx`. -/

theorem getD_take (d : α) :
    ∀ (xs : List α) (p i : Nat), i < p → (xs.take p).getD i d = xs.getD i d := by
  intro xs
  induction xs with
  | nil => simp
  | cons x xs ih =>
    intro p i hip
    cases p with
    | zero => omega
    | succ p =>
      cases i with
      | zero => simp
      | succ i => simpa using ih p i (by omega)

theorem getD_drop (d : α) :
    ∀ (xs : List α) (p i : Nat), (xs.drop p).getD i d = xs.getD (p + i) d := by
  intro xs
  induction xs with
  | nil => simp
  | cons x xs ih =>
    intro p i
    cases p with
    | zero => simp
    | succ p =>
      have harith : p + 1 + i = (p + i) + 1 := by omega
      rw [harith, List.drop_succ_cons, List.getD_cons_succ]
      exact ih p i

theorem insertIdx_eq_take_cons_drop (v : α) :
    ∀ (xs : List α) (p : Nat), p ≤ xs.length →
      xs.insertIdx p v = xs.take p ++ v :: xs.drop p := by
  intro xs
  induction xs with
  | nil =>
    intro p hp
    have : p = 0 := by simpa using hp
    simp [this]
  | cons x xs ih =>
    intro p hp
    cases p with
    | zero => simp
    | succ p =>
      rw [List.insertIdx_succ_cons, ih p (by simpa using hp)]
      simp

/-! Facts about the strict-ordering invariant I1. -/

theorem ordered_pairwise {lt : α → α → Bool}
    (htrans : ∀ a b c : α, lt a b = true → lt b c = true → lt a c = true)
    {xs : List α} (h : Ordered lt xs) :
    List.Pairwise (fun a b => lt a b = true) xs := by
  have : IsTrans α (fun a b => lt a b = true) := ⟨fun a b c => htrans a b c⟩
  exact List.chain'_iff_pairwise.mp h

theorem ordered_getD_lt {lt : α → α → Bool}
    (htrans : ∀ a b c : α, lt a b = true → lt b c = true → lt a c = true)
    {xs : List α} (h : Ordered lt xs) (d1 d2 : α) :
    ∀ i j, i < j → j < xs.length → lt (xs.getD i d1) (xs.getD j d2) = true := by
  intro i j hij hj
  have hp := ordered_pairwise htrans h
  rw [List.pairwise_iff_getElem] at hp
  have hlt := hp i j (by omega) hj hij
  rw [List.getD_eq_getElem _ _ (by omega : i < xs.length),
    List.getD_eq_getElem _ _ hj]
  exact hlt

theorem ordered_sublist {lt : α → α → Bool}
    (htrans : ∀ a b c : α, lt a b = true → lt b c = true → lt a c = true)
    {xs ys : List α} (hsub : ys.Sublist xs) (h : Ordered lt xs) : Ordered lt ys := by
  have : IsTrans α (fun a b => lt a b = true) := ⟨fun a b c => htrans a b c⟩
  exact List.Chain'.sublist h hsub

theorem ordered_insertIdx {lt : α → α → Bool} (v d : α) :
    ∀ (xs : List α) (p : Nat), Ordered lt xs → p ≤ xs.length →
      (∀ i, i + 1 = p → lt (xs.getD i d) v = true) →
      (p < xs.length → lt v (xs.getD p d) = true) →
      Ordered lt (xs.insertIdx p v) := by
  intro xs
  induction xs with
  | nil =>
    intro p _ hp _ _
    have hp0 : p = 0 := by simpa using hp
    subst hp0
    simp [Ordered]
  | cons x xs ih =>
    intro p hord hp hleft hright
    cases p with
    | zero =>
      rw [List.insertIdx_zero]
      refine List.chain'_cons.mpr ⟨?_, hord⟩
      simpa using hright (by simp)
    | succ p =>
      rw [List.insertIdx_succ_cons]
      refine List.chain'_cons'.mpr ⟨?_, ?_⟩
      · intro y hy
        cases p with
        | zero =>
          rw [List.insertIdx_zero] at hy
          simp only [List.head?_cons, Option.mem_def, Option.some.injEq] at hy
          subst hy
          simpa using hleft 0 rfl
        | succ p =>
          cases xs with
          | nil => simp at hp
          | cons x1 xs1 =>
            rw [List.insertIdx_succ_cons] at hy
            simp only [List.head?_cons, Option.mem_def, Option.some.injEq] at hy
            subst hy
            exact (List.chain'_cons.mp hord).1
      · refine ih p hord.tail (by simpa using hp) ?_ ?_
        · intro i hi
          simpa using hleft (i + 1) (by omega)
        · intro hplen
          simpa using hright (by simpa using Nat.succ_lt_succ hplen)

theorem ordered_eraseIdx {lt : α → α → Bool}
    (htrans : ∀ a b c : α, lt a b = true → lt b c = true → lt a c = true)
    {xs : List α} (h : Ordered lt xs) (p : Nat) : Ordered lt (xs.eraseIdx p) :=
  ordered_sublist htrans (List.eraseIdx_sublist xs p) h

theorem take_append_drop_sublist (xs : List α) (f l : Nat) (h : f ≤ l) :
    (xs.take f ++ xs.drop l).Sublist xs := by
  conv_rhs => rw [← List.take_append_drop f xs]
  apply List.Sublist.append_left
  have hdrop : xs.drop l = (xs.drop f).drop (l - f) := by
    rw [List.drop_drop]
    congr 1
    omega
  rw [hdrop]
  exact List.drop_sublist _ _

theorem ordered_take_drop {lt : α → α → Bool}
    (htrans : ∀ a b c : α, lt a b = true → lt b c = true → lt a c = true)
    {xs : List α} (h : Ordered lt xs) (f l : Nat) (hfl : f ≤ l) :
    Ordered lt (xs.take f ++ xs.drop l) :=
  ordered_sublist htrans (take_append_drop_sublist xs f l hfl) h

theorem ordered_insert_guard {lt : α → α → Bool} {xs : List α}
    (hord : Ordered lt xs) (v : α) (p : Nat) (hple : p ≤ xs.length)
    (hleft : ∀ i, i + 1 = p → lt (xs.getD i v) v = true) :
    Ordered lt (if p == xs.length || lt v (xs.getD p v) then xs.insertIdx p v else xs) := by
  split
  case isTrue hg =>
    refine ordered_insertIdx v v xs p hord hple hleft ?_
    intro hplen
    rcases Bool.or_eq_true_iff.mp hg with h1 | h2
    · exact absurd (show p = xs.length by simpa using h1) (by omega)
    · exact h2
  case isFalse => exact hord

variable (cmpApp : C → α → α → Bool)

theorem insert_comp (s : DenseSet α C A) (v : α) :
    ((DenseSet.insert cmpApp s v).1).comp_ = s.comp_ := by
  simp only [DenseSet.insert]
  split <;> rfl

theorem insert_alloc (s : DenseSet α C A) (v : α) :
    ((DenseSet.insert cmpApp s v).1).alloc = s.alloc := by
  simp only [DenseSet.insert]
  split <;> rfl

theorem insert_ordered (s : DenseSet α C A) (v : α)
    (hord : Ordered (cmpApp s.comp_) s.elements) :
    Ordered (cmpApp s.comp_) ((DenseSet.insert cmpApp s v).1).elements := by
  simp only [DenseSet.insert]
  have := ordered_insert_guard hord v (lowerBound (cmpApp s.comp_) v s.elements)
    (lowerBound_le_length _ v s.elements)
    (fun i hi => lt_of_lt_lowerBound _ v v s.elements i (by omega))
  split at this <;> split <;> simp_all

theorem getLast_getD (d : α) :
    ∀ xs : List α, xs.getLast?.getD d = xs.getD (xs.length - 1) d := by
  intro xs
  induction xs with
  | nil => simp
  | cons x xs ih =>
    cases xs with
    | nil => simp
    | cons y ys =>
      rw [List.getLast?_cons_cons]
      have harith : (x :: y :: ys).length - 1 = ((y :: ys).length - 1) + 1 := by simp
      rw [harith, List.getD_cons_succ]
      exact ih

theorem ordered_append_singleton {lt : α → α → Bool} {xs : List α}
    (hord : Ordered lt xs) (v : α)
    (hback : xs = [] ∨ lt (xs.getD (xs.length - 1) v) v = true) :
    Ordered lt (xs ++ [v]) := by
  rw [← List.insertIdx_length_self]
  refine ordered_insertIdx v v xs xs.length hord le_rfl ?_ (by omega)
  intro i hi
  rcases hback with hnil | hlast
  · subst hnil; simp at hi
  · have : i = xs.length - 1 := by
      rcases Nat.eq_zero_or_pos xs.length with h0 | h0
      · omega
      · omega
    rw [this]
    exact hlast

theorem insertHint_comp (s : DenseSet α C A) (hint : Nat) (v : α) :
    ((DenseSet.insertHint cmpApp s hint v).1).comp_ = s.comp_ := by
  simp only [DenseSet.insertHint]
  split
  · rfl
  · split
    · split
      · rfl
      · exact insert_comp cmpApp s v
    · split <;> (split <;> rfl)

theorem insertHint_alloc (s : DenseSet α C A) (hint : Nat) (v : α) :
    ((DenseSet.insertHint cmpApp s hint v).1).alloc = s.alloc := by
  simp only [DenseSet.insertHint]
  split
  · rfl
  · split
    · split
      · rfl
      · exact insert_alloc cmpApp s v
    · split <;> (split <;> rfl)

theorem insertHint_ordered (s : DenseSet α C A) (hint : Nat) (v : α)
    (hord : Ordered (cmpApp s.comp_) s.elements) :
    Ordered (cmpApp s.comp_) ((DenseSet.insertHint cmpApp s hint v).1).elements := by
  simp only [DenseSet.insertHint]
  split
  case isTrue hemp => simp [Ordered]
  case isFalse hemp =>
  split
  case isTrue hpos =>
    split
    case isTrue hback =>
      refine ordered_append_singleton hord v (Or.inr ?_)
      rwa [getLast_getD] at hback
    case isFalse hback => exact insert_ordered cmpApp s v hord
  case isFalse hpos =>
  split
  case isTrue hlt =>
    have hple : lowerBound (cmpApp s.comp_) v (s.elements.take hint) ≤ s.elements.length := by
      have h1 := lowerBound_le_length (cmpApp s.comp_) v (s.elements.take hint)
      have h2 : (s.elements.take hint).length ≤ s.elements.length := by
        simp [List.length_take]
      omega
    have hg := ordered_insert_guard hord v
      (lowerBound (cmpApp s.comp_) v (s.elements.take hint)) hple ?_
    · split at hg <;> split <;> simp_all
    · intro i hi
      have hi' : i < lowerBound (cmpApp s.comp_) v (s.elements.take hint) := by omega
      have hitake : i < hint := by
        have := lowerBound_le_length (cmpApp s.comp_) v (s.elements.take hint)
        have : (s.elements.take hint).length ≤ hint := by simp [List.length_take]
        omega
      have := lt_of_lt_lowerBound (cmpApp s.comp_) v v (s.elements.take hint) i hi'
      rwa [getD_take v s.elements hint i hitake] at this
  case isFalse hlt =>
    by_cases hq : lowerBound (cmpApp s.comp_) v (s.elements.drop hint) = 0
    · rw [hq]
      split
      next hg =>
        rcases Bool.or_eq_true_iff.mp hg with h1 | h2
        · simp only [Nat.add_zero] at h1
          exact absurd h1 hpos
        · rw [Nat.add_zero] at h2
          exact absurd h2 hlt
      next => exact hord
    · have hqpos : 0 < lowerBound (cmpApp s.comp_) v (s.elements.drop hint) := by omega
      have hdlen : (s.elements.drop hint).length = s.elements.length - hint := by
        simp [List.length_drop]
      have hqle := lowerBound_le_length (cmpApp s.comp_) v (s.elements.drop hint)
      have hhint : hint < s.elements.length := by omega
      have hple : hint + lowerBound (cmpApp s.comp_) v (s.elements.drop hint) ≤
          s.elements.length := by omega
      have hg := ordered_insert_guard hord v
        (hint + lowerBound (cmpApp s.comp_) v (s.elements.drop hint)) hple ?_
      · split at hg <;> split <;> simp_all
      · intro i hi
        have hi' : i - hint < lowerBound (cmpApp s.comp_) v (s.elements.drop hint) := by
          omega
        have := lt_of_lt_lowerBound (cmpApp s.comp_) v v (s.elements.drop hint) (i - hint) hi'
        rw [getD_drop v s.elements hint (i - hint)] at this
        have harith : hint + (i - hint) = i := by omega
        rwa [harith] at this

theorem eraseKey_comp (s : DenseSet α C A) (k : α) :
    ((DenseSet.eraseKey cmpApp s k).1).comp_ = s.comp_ := by
  simp only [DenseSet.eraseKey]
  split <;> rfl

theorem eraseKey_alloc (s : DenseSet α C A) (k : α) :
    ((DenseSet.eraseKey cmpApp s k).1).alloc = s.alloc := by
  simp only [DenseSet.eraseKey]
  split <;> rfl

theorem eraseKey_ordered (s : DenseSet α C A) (k : α)
    (htrans : ∀ a b c : α, cmpApp s.comp_ a b = true → cmpApp s.comp_ b c = true →
      cmpApp s.comp_ a c = true)
    (hord : Ordered (cmpApp s.comp_) s.elements) :
    Ordered (cmpApp s.comp_) ((DenseSet.eraseKey cmpApp s k).1).elements := by
  simp only [DenseSet.eraseKey]
  split
  · exact hord
  · exact ordered_eraseIdx htrans hord _

theorem insertRange_comp :
    ∀ (vs : List α) (s : DenseSet α C A),
      (DenseSet.insertRange cmpApp s vs).comp_ = s.comp_ := by
  intro vs
  induction vs with
  | nil => intro s; rfl
  | cons v vs ih =>
    intro s
    show (DenseSet.insertRange cmpApp ((DenseSet.insert cmpApp s v).1) vs).comp_ = s.comp_
    rw [ih, insert_comp]

theorem insertRange_alloc :
    ∀ (vs : List α) (s : DenseSet α C A),
      (DenseSet.insertRange cmpApp s vs).alloc = s.alloc := by
  intro vs
  induction vs with
  | nil => intro s; rfl
  | cons v vs ih =>
    intro s
    show (DenseSet.insertRange cmpApp ((DenseSet.insert cmpApp s v).1) vs).alloc = s.alloc
    rw [ih, insert_alloc]

theorem insertRange_ordered :
    ∀ (vs : List α) (s : DenseSet α C A), Ordered (cmpApp s.comp_) s.elements →
      Ordered (cmpApp s.comp_) (DenseSet.insertRange cmpApp s vs).elements := by
  intro vs
  induction vs with
  | nil => intro s h; exact h
  | cons v vs ih =>
    intro s h
    show Ordered (cmpApp s.comp_)
      (DenseSet.insertRange cmpApp ((DenseSet.insert cmpApp s v).1) vs).elements
    have h1 := insert_ordered cmpApp s v h
    have hcomp := insert_comp cmpApp s v
    have h2 := ih ((DenseSet.insert cmpApp s v).1) (by rwa [hcomp])
    rwa [hcomp] at h2

theorem applyOp_comp (s : DenseSet α C A) (op : DenseSet.SetOp α) :
    (DenseSet.applyOp cmpApp s op).comp_ = s.comp_ := by
  cases op with
  | insertVal v => exact insert_comp cmpApp s v
  | insertHinted h v => exact insertHint_comp cmpApp s h v
  | insertRanged vs => exact insertRange_comp cmpApp vs s
  | insertListed vs => exact insertRange_comp cmpApp vs s
  | emplaceVal v => exact insert_comp cmpApp s v
  | eraseKeyed k => exact eraseKey_comp cmpApp s k
  | erasePositioned p => rfl
  | eraseRanged f len => rfl

theorem applyOp_ordered (s : DenseSet α C A) (op : DenseSet.SetOp α)
    (htrans : ∀ a b c : α, cmpApp s.comp_ a b = true → cmpApp s.comp_ b c = true →
      cmpApp s.comp_ a c = true)
    (hord : Ordered (cmpApp s.comp_) s.elements) :
    Ordered (cmpApp s.comp_) (DenseSet.applyOp cmpApp s op).elements := by
  cases op with
  | insertVal v => exact insert_ordered cmpApp s v hord
  | insertHinted h v => exact insertHint_ordered cmpApp s h v hord
  | insertRanged vs => exact insertRange_ordered cmpApp vs s hord
  | insertListed vs => exact insertRange_ordered cmpApp vs s hord
  | emplaceVal v => exact insert_ordered cmpApp s v hord
  | eraseKeyed k => exact eraseKey_ordered cmpApp s k htrans hord
  | erasePositioned p => exact ordered_eraseIdx htrans hord p
  | eraseRanged f len => exact ordered_take_drop htrans hord f (f + len) (by omega)

theorem applyOps_ordered (c : C)
    (htrans : ∀ a b d : α, cmpApp c a b = true → cmpApp c b d = true →
      cmpApp c a d = true) :
    ∀ (ops : List (DenseSet.SetOp α)) (s : DenseSet α C A), s.comp_ = c →
      Ordered (cmpApp c) s.elements →
      (DenseSet.applyOps cmpApp s ops).comp_ = c ∧
        Ordered (cmpApp c) (DenseSet.applyOps cmpApp s ops).elements := by
  intro ops
  induction ops with
  | nil => intro s hc h; exact ⟨hc, h⟩
  | cons op ops ih =>
    intro s hc h
    have htrans' : ∀ a b d : α, cmpApp s.comp_ a b = true → cmpApp s.comp_ b d = true →
        cmpApp s.comp_ a d = true := by
      rw [hc]; exact htrans
    have hcomp := applyOp_comp cmpApp s op
    have hord := applyOp_ordered cmpApp s op htrans' (by rwa [hc])
    show (DenseSet.applyOps cmpApp (DenseSet.applyOp cmpApp s op) ops).comp_ = c ∧ _
    exact ih (DenseSet.applyOp cmpApp s op) (by rw [hcomp, hc])
      (by rwa [hc] at hord)

theorem construct_comp (c : C) (al : A) (init : List α) :
    (DenseSet.construct cmpApp c al init : DenseSet α C A).comp_ = c :=
  insertRange_comp cmpApp init ⟨[], c, al⟩

theorem construct_ordered (c : C) (al : A) (init : List α) :
    Ordered (cmpApp c) (DenseSet.construct cmpApp c al init : DenseSet α C A).elements :=
  insertRange_ordered cmpApp init ⟨[], c, al⟩ (by simp [Ordered])

/-- C1: for every sequence of public mutations (insert in any form, hinted
insert, range insert, emplace, erase in any form) starting from any
constructed `DenseSet`, the element sequence after each operation returns is
strictly ordered ascending by the comparator with no two elements comparing
equivalent (invariant I1), assuming the comparator is a strict weak ordering
(only its transitivity is needed). -/
theorem c1_mutations_preserve_strict_order (c : C) (al : A)
    (htrans : ∀ a b d : α, cmpApp c a b = true → cmpApp c b d = true →
      cmpApp c a d = true)
    (init : List α) (ops : List (DenseSet.SetOp α)) :
    Ordered (cmpApp c)
      (DenseSet.applyOps cmpApp (DenseSet.construct cmpApp c al init) ops).elements :=
  (applyOps_ordered cmpApp c htrans ops (DenseSet.construct cmpApp c al init)
    (construct_comp cmpApp c al init) (construct_ordered cmpApp c al init)).2

/-- Witness for C1 at a concrete comparator, initializer and mutation
sequence. -/
theorem c1_witness :
    Ordered (fun a b : Fin 4 => decide (a < b))
      (DenseSet.applyOps (fun _ : Unit => fun a b : Fin 4 => decide (a < b))
        (DenseSet.construct (fun _ : Unit => fun a b : Fin 4 => decide (a < b)) () ()
          [2, 1, 2])
        [DenseSet.SetOp.insertVal 3, DenseSet.SetOp.insertHinted 0 0,
          DenseSet.SetOp.eraseKeyed 2, DenseSet.SetOp.insertRanged [3, 0],
          DenseSet.SetOp.erasePositioned 0, DenseSet.SetOp.eraseRanged 0 1,
          DenseSet.SetOp.emplaceVal 3, DenseSet.SetOp.insertListed [1]]).elements :=
  c1_mutations_preserve_strict_order (fun _ : Unit => fun a b : Fin 4 => decide (a < b))
    () () (by decide) [2, 1, 2]
    [DenseSet.SetOp.insertVal 3, DenseSet.SetOp.insertHinted 0 0,
      DenseSet.SetOp.eraseKeyed 2, DenseSet.SetOp.insertRanged [3, 0],
      DenseSet.SetOp.erasePositioned 0, DenseSet.SetOp.eraseRanged 0 1,
      DenseSet.SetOp.emplaceVal 3, DenseSet.SetOp.insertListed [1]]

theorem length_take_lowerBound (lt : α → α → Bool) (v : α) (xs : List α) :
    (xs.take (lowerBound lt v xs)).length = lowerBound lt v xs := by
  have := lowerBound_le_length lt v xs
  simp only [List.length_take]
  omega

theorem lowerBound_take_self (lt : α → α → Bool) (v : α) (xs : List α) :
    lowerBound lt v (xs.take (lowerBound lt v xs)) = lowerBound lt v xs := by
  have h := lowerBound_eq_length lt v (xs.take (lowerBound lt v xs)) (by
    intro i hi
    rw [length_take_lowerBound] at hi
    rw [getD_take v xs _ i hi]
    exact lt_of_lt_lowerBound lt v v xs i hi)
  rw [h, length_take_lowerBound]

theorem lowerBound_insertIdx_self (lt : α → α → Bool) (v : α) (xs : List α)
    (hirr : lt v v = false) :
    lowerBound lt v (xs.insertIdx (lowerBound lt v xs) v) = lowerBound lt v xs := by
  rw [insertIdx_eq_take_cons_drop v xs _ (lowerBound_le_length lt v xs),
    lowerBound_append, lowerBound_take_self, length_take_lowerBound, if_pos rfl]
  have h0 : lowerBound lt v (v :: xs.drop (lowerBound lt v xs)) = 0 := by
    simp [lowerBound, hirr]
  simp [h0]

theorem getD_insertIdx_lowerBound (lt : α → α → Bool) (v : α) (xs : List α) :
    (xs.insertIdx (lowerBound lt v xs) v).getD (lowerBound lt v xs) v = v := by
  rw [insertIdx_eq_take_cons_drop v xs _ (lowerBound_le_length lt v xs),
    List.getD_append_right _ _ _ _ (le_of_eq (length_take_lowerBound lt v xs)),
    length_take_lowerBound, Nat.sub_self, List.getD_cons_zero]

theorem insert_guard_true (s : DenseSet α C A) (v : α)
    (hcond : ((lowerBound (cmpApp s.comp_) v s.elements == s.elements.length) ||
      cmpApp s.comp_ v
        (s.elements.getD (lowerBound (cmpApp s.comp_) v s.elements) v)) = true) :
    DenseSet.insert cmpApp s v =
      ({ s with elements :=
          s.elements.insertIdx (lowerBound (cmpApp s.comp_) v s.elements) v },
        (lowerBound (cmpApp s.comp_) v s.elements, true)) := by
  simp only [DenseSet.insert]
  rw [if_pos hcond]

theorem insert_guard_false (s : DenseSet α C A) (v : α)
    (hcond : ((lowerBound (cmpApp s.comp_) v s.elements == s.elements.length) ||
      cmpApp s.comp_ v
        (s.elements.getD (lowerBound (cmpApp s.comp_) v s.elements) v)) = false) :
    DenseSet.insert cmpApp s v =
      (s, (lowerBound (cmpApp s.comp_) v s.elements, false)) := by
  simp only [DenseSet.insert]
  rw [if_neg (by rw [hcond]; simp)]

/-- C2: plain insert computes the lower bound of the value; if that position
is the end of the sequence or holds a strictly greater element, the value is
inserted there, `(position, true)` is returned, and the size grows by one;
otherwise `(position, false)` is returned, the set is unchanged, and the
element at the position is equivalent to the value (neither compares less
than the other); inserting the same value a second time returns `false` and
leaves the set unchanged, so the size changes only on the first call. -/
theorem c2_plain_insert_spec (s : DenseSet α C A) (v : α)
    (hirr : ∀ a : α, cmpApp s.comp_ a a = false)
    (hord : Ordered (cmpApp s.comp_) s.elements) :
    ((DenseSet.lower_bound cmpApp s v = s.elements.length ∨
        cmpApp s.comp_ v (s.elements.getD (DenseSet.lower_bound cmpApp s v) v) = true) →
      (DenseSet.insert cmpApp s v).1.elements =
          s.elements.insertIdx (DenseSet.lower_bound cmpApp s v) v ∧
        (DenseSet.insert cmpApp s v).2 = (DenseSet.lower_bound cmpApp s v, true) ∧
        (DenseSet.insert cmpApp s v).1.elements.length = s.elements.length + 1) ∧
    (¬(DenseSet.lower_bound cmpApp s v = s.elements.length ∨
        cmpApp s.comp_ v (s.elements.getD (DenseSet.lower_bound cmpApp s v) v) = true) →
      (DenseSet.insert cmpApp s v).1 = s ∧
        (DenseSet.insert cmpApp s v).2 = (DenseSet.lower_bound cmpApp s v, false) ∧
        DenseSet.lower_bound cmpApp s v < s.elements.length ∧
        cmpApp s.comp_ (s.elements.getD (DenseSet.lower_bound cmpApp s v) v) v = false ∧
        cmpApp s.comp_ v (s.elements.getD (DenseSet.lower_bound cmpApp s v) v) = false) ∧
    (DenseSet.insert cmpApp ((DenseSet.insert cmpApp s v).1) v).1 =
      (DenseSet.insert cmpApp s v).1 ∧
    (DenseSet.insert cmpApp ((DenseSet.insert cmpApp s v).1) v).2.2 = false := by
  have hp := lowerBound_le_length (cmpApp s.comp_) v s.elements
  have hbool : ∀ hg : DenseSet.lower_bound cmpApp s v = s.elements.length ∨
      cmpApp s.comp_ v (s.elements.getD (DenseSet.lower_bound cmpApp s v) v) = true,
      ((lowerBound (cmpApp s.comp_) v s.elements == s.elements.length) ||
        cmpApp s.comp_ v
          (s.elements.getD (lowerBound (cmpApp s.comp_) v s.elements) v)) = true := by
    intro hg
    rcases hg with h | h
    · simp only [DenseSet.lower_bound] at h
      rw [Bool.or_eq_true_iff]
      exact Or.inl (by simpa using h)
    · simp only [DenseSet.lower_bound] at h
      rw [Bool.or_eq_true_iff]
      exact Or.inr h
  have hboolneg : ∀ _ : ¬(DenseSet.lower_bound cmpApp s v = s.elements.length ∨
      cmpApp s.comp_ v (s.elements.getD (DenseSet.lower_bound cmpApp s v) v) = true),
      ((lowerBound (cmpApp s.comp_) v s.elements == s.elements.length) ||
        cmpApp s.comp_ v
          (s.elements.getD (lowerBound (cmpApp s.comp_) v s.elements) v)) = false := by
    intro hg
    push_neg at hg
    obtain ⟨hg1, hg2⟩ := hg
    simp only [DenseSet.lower_bound] at hg1 hg2
    rw [Bool.or_eq_false_iff]
    refine ⟨?_, ?_⟩
    · rw [Bool.eq_false_iff]
      intro hbeq
      exact hg1 (by simpa using hbeq)
    · rw [Bool.eq_false_iff]
      exact hg2
  refine ⟨?_, ?_, ?_⟩
  · intro hg
    rw [insert_guard_true cmpApp s v (hbool hg)]
    exact ⟨rfl, rfl, List.length_insertIdx _ _ hp⟩
  · intro hg
    rw [insert_guard_false cmpApp s v (hboolneg hg)]
    push_neg at hg
    obtain ⟨hg1, hg2⟩ := hg
    simp only [DenseSet.lower_bound] at hg1 hg2
    have hplen : lowerBound (cmpApp s.comp_) v s.elements < s.elements.length := by
      omega
    exact ⟨rfl, rfl, hplen, lowerBound_not_lt _ v v s.elements hplen,
      Bool.eq_false_iff.mpr hg2⟩
  · by_cases hg : DenseSet.lower_bound cmpApp s v = s.elements.length ∨
        cmpApp s.comp_ v (s.elements.getD (DenseSet.lower_bound cmpApp s v) v) = true
    · have hr := insert_guard_true cmpApp s v (hbool hg)
      have he : ((DenseSet.insert cmpApp s v).1).elements =
          s.elements.insertIdx (lowerBound (cmpApp s.comp_) v s.elements) v := by
        rw [hr]
      have hc : ((DenseSet.insert cmpApp s v).1).comp_ = s.comp_ :=
        insert_comp cmpApp s v
      have hlb2 := lowerBound_insertIdx_self (cmpApp s.comp_) v s.elements (hirr v)
      have hgd2 := getD_insertIdx_lowerBound (cmpApp s.comp_) v s.elements
      have hlen2 : (s.elements.insertIdx (lowerBound (cmpApp s.comp_) v s.elements)
          v).length = s.elements.length + 1 := List.length_insertIdx _ _ hp
      have hcond2 : ((lowerBound (cmpApp ((DenseSet.insert cmpApp s v).1).comp_) v
            ((DenseSet.insert cmpApp s v).1).elements ==
            ((DenseSet.insert cmpApp s v).1).elements.length) ||
          cmpApp ((DenseSet.insert cmpApp s v).1).comp_ v
            (((DenseSet.insert cmpApp s v).1).elements.getD
              (lowerBound (cmpApp ((DenseSet.insert cmpApp s v).1).comp_) v
                ((DenseSet.insert cmpApp s v).1).elements) v)) = false := by
        rw [hc, he, hlb2, hgd2, hlen2, Bool.or_eq_false_iff]
        refine ⟨?_, hirr v⟩
        rw [Bool.eq_false_iff]
        intro hbeq
        have : lowerBound (cmpApp s.comp_) v s.elements = s.elements.length + 1 := by
          simpa using hbeq
        omega
      rw [insert_guard_false cmpApp ((DenseSet.insert cmpApp s v).1) v hcond2]
      exact ⟨rfl, rfl⟩
    · have hr := insert_guard_false cmpApp s v (hboolneg hg)
      have hs : (DenseSet.insert cmpApp s v).1 = s := by rw [hr]
      rw [hs, insert_guard_false cmpApp s v (hboolneg hg)]
      exact ⟨rfl, rfl⟩

/-- Witness for C2 at a concrete set and value. -/
theorem c2_witness :
    (∀ a : Fin 3, decide (a < a) = false) ∧
    Ordered (fun a b : Fin 3 => decide (a < b)) [1] ∧
    (DenseSet.insert (fun _ : Unit => fun a b : Fin 3 => decide (a < b))
      (DenseSet.mk [1] () ()) 0).1.elements = [0, 1] ∧
    (DenseSet.insert (fun _ : Unit => fun a b : Fin 3 => decide (a < b))
      (DenseSet.mk [1] () ()) 0).2 = (0, true) ∧
    (DenseSet.insert (fun _ : Unit => fun a b : Fin 3 => decide (a < b))
      ((DenseSet.insert (fun _ : Unit => fun a b : Fin 3 => decide (a < b))
        (DenseSet.mk [1] () ()) 0).1) 0).1 =
      (DenseSet.insert (fun _ : Unit => fun a b : Fin 3 => decide (a < b))
        (DenseSet.mk [1] () ()) 0).1 ∧
    (DenseSet.insert (fun _ : Unit => fun a b : Fin 3 => decide (a < b))
      ((DenseSet.insert (fun _ : Unit => fun a b : Fin 3 => decide (a < b))
        (DenseSet.mk [1] () ()) 0).1) 0).2.2 = false := by
  have h := c2_plain_insert_spec (fun _ : Unit => fun a b : Fin 3 => decide (a < b))
    (DenseSet.mk [1] () ()) 0 (by decide) (by simp)
  refine ⟨by decide, by simp, ?_, ?_, h.2.2.1, h.2.2.2⟩
  · have he := (h.1 (by decide)).1
    rw [he]
    decide
  · have he := (h.1 (by decide)).2.1
    rw [he]
    decide


/-- C3: for every set satisfying I1, every value and every valid hint
position (up to and including the end sentinel), hinted insert yields exactly
the same final set as plain insert, and its returned iterator equals the
iterator component returned by plain insert; the hint never affects the
outcome, only performance.  The comparator is assumed to be a strict weak
ordering (irreflexivity, transitivity, and the comparison property that
`a < b` implies `a < d` or `d < b`). -/
theorem c3_hint_equiv_plain (s : DenseSet α C A) (v : α) (hint : Nat)
    (hirr : ∀ a : α, cmpApp s.comp_ a a = false)
    (htrans : ∀ a b d : α, cmpApp s.comp_ a b = true → cmpApp s.comp_ b d = true →
      cmpApp s.comp_ a d = true)
    (hsplit : ∀ a b d : α, cmpApp s.comp_ a b = true →
      cmpApp s.comp_ a d = true ∨ cmpApp s.comp_ d b = true)
    (hord : Ordered (cmpApp s.comp_) s.elements)
    (hhint : hint ≤ s.elements.length) :
    (DenseSet.insertHint cmpApp s hint v).1 = (DenseSet.insert cmpApp s v).1 ∧
    (DenseSet.insertHint cmpApp s hint v).2 = (DenseSet.insert cmpApp s v).2.1 := by
  have hasym : ∀ a b : α, cmpApp s.comp_ a b = true → cmpApp s.comp_ b a = false := by
    intro a b hab
    by_contra hba
    rw [Bool.not_eq_false] at hba
    exact absurd (htrans a b a hab hba) (by simp [hirr a])
  simp only [DenseSet.insertHint]
  split
  case isTrue hemp =>
    have hxs : s.elements = [] := by simpa using hemp
    have hr := insert_guard_true cmpApp s v (by rw [hxs]; simp [lowerBound])
    rw [hr]
    constructor
    · simp [hxs, lowerBound]
    · simp [hxs, lowerBound]
  case isFalse hemp =>
  split
  case isTrue hpos =>
    have hn : s.elements.length ≠ 0 := by
      intro h0
      exact hemp (by simpa [List.isEmpty_iff, List.length_eq_zero] using h0)
    split
    case isTrue hback =>
      have hall : ∀ i, i < s.elements.length →
          cmpApp s.comp_ (s.elements.getD i v) v = true := by
        intro i hi
        rw [getLast_getD] at hback
        by_cases hi1 : i = s.elements.length - 1
        · rw [hi1]
          exact hback
        · exact htrans _ _ _
            (ordered_getD_lt htrans hord v v i (s.elements.length - 1)
              (by omega) (by omega)) hback
      have hlb : lowerBound (cmpApp s.comp_) v s.elements = s.elements.length :=
        lowerBound_eq_length _ v _ hall
      have hr := insert_guard_true cmpApp s v (by rw [hlb]; simp)
      rw [hr]
      constructor
      · show DenseSet.mk (s.elements ++ [v]) s.comp_ s.alloc = _
        rw [hlb, List.insertIdx_length_self]
      · simp [hlb]
    case isFalse hback => exact ⟨rfl, rfl⟩
  case isFalse hpos =>
  have hhintlt : hint < s.elements.length := by
    have : hint ≠ s.elements.length := by simpa using hpos
    omega
  have hlen_take : (s.elements.take hint).length = hint := by
    simp only [List.length_take]
    omega
  have happ := lowerBound_append (cmpApp s.comp_) v (s.elements.take hint)
    (s.elements.drop hint)
  rw [List.take_append_drop] at happ
  split
  case isTrue hvh =>
    have key : lowerBound (cmpApp s.comp_) v s.elements =
        lowerBound (cmpApp s.comp_) v (s.elements.take hint) := by
      by_cases hcase : lowerBound (cmpApp s.comp_) v (s.elements.take hint) =
          (s.elements.take hint).length
      · have hdrop0 : lowerBound (cmpApp s.comp_) v (s.elements.drop hint) = 0 := by
          cases hd : s.elements.drop hint with
          | nil => rfl
          | cons y ys =>
            have hy : y = s.elements.getD hint v := by
              have hgd := getD_drop v s.elements hint 0
              rw [hd] at hgd
              simpa using hgd
            have hyv : cmpApp s.comp_ y v = false := by
              rw [hy]
              exact hasym v (s.elements.getD hint v) hvh
            simp [lowerBound, hyv]
        rw [happ, if_pos hcase, hdrop0, hcase]
        omega
      · rw [happ, if_neg hcase]
    rw [← key]
    constructor
    · show _ = (DenseSet.insert cmpApp s v).1
      simp only [DenseSet.insert]
      split <;> rfl
    · show _ = (DenseSet.insert cmpApp s v).2.1
      simp only [DenseSet.insert]
      split <;> rfl
  case isFalse hvh =>
    have htake : lowerBound (cmpApp s.comp_) v (s.elements.take hint) =
        (s.elements.take hint).length := by
      refine lowerBound_eq_length _ v _ ?_
      intro i hi
      rw [hlen_take] at hi
      rw [getD_take v s.elements hint i hi]
      have h1 := ordered_getD_lt htrans hord v v i hint hi hhintlt
      rcases hsplit _ _ _ h1 with h2 | h2
      · exact h2
      · exact absurd h2 hvh
    have key : lowerBound (cmpApp s.comp_) v s.elements =
        hint + lowerBound (cmpApp s.comp_) v (s.elements.drop hint) := by
      rw [happ, if_pos htake, hlen_take]
    rw [← key]
    constructor
    · show _ = (DenseSet.insert cmpApp s v).1
      simp only [DenseSet.insert]
      split <;> rfl
    · show _ = (DenseSet.insert cmpApp s v).2.1
      simp only [DenseSet.insert]
      split <;> rfl

/-- Witness for C3 at a concrete set, hint and value. -/
theorem c3_witness :
    (∀ a : Fin 4, decide (a < a) = false) ∧
    Ordered (fun a b : Fin 4 => decide (a < b)) [0, 2] ∧
    (DenseSet.insertHint (fun _ : Unit => fun a b : Fin 4 => decide (a < b))
      (DenseSet.mk [0, 2] () ()) 2 1).1 =
      (DenseSet.insert (fun _ : Unit => fun a b : Fin 4 => decide (a < b))
        (DenseSet.mk [0, 2] () ()) 1).1 ∧
    (DenseSet.insertHint (fun _ : Unit => fun a b : Fin 4 => decide (a < b))
      (DenseSet.mk [0, 2] () ()) 2 1).2 =
      (DenseSet.insert (fun _ : Unit => fun a b : Fin 4 => decide (a < b))
        (DenseSet.mk [0, 2] () ()) 1).2.1 := by
  have h := c3_hint_equiv_plain (fun _ : Unit => fun a b : Fin 4 => decide (a < b))
    (DenseSet.mk [0, 2] () ()) 1 2 (by decide) (by decide) (by decide) (by simp)
    (by decide)
  exact ⟨by decide, by simp, h.1, h.2⟩


theorem eraseKey_guard_true (s : DenseSet α C A) (k : α)
    (hcond : ((lowerBound (cmpApp s.comp_) k s.elements == s.elements.length) ||
      cmpApp s.comp_ k
        (s.elements.getD (lowerBound (cmpApp s.comp_) k s.elements) k)) = true) :
    DenseSet.eraseKey cmpApp s k = (s, 0) := by
  simp only [DenseSet.eraseKey]
  rw [if_pos hcond]

theorem eraseKey_guard_false (s : DenseSet α C A) (k : α)
    (hcond : ((lowerBound (cmpApp s.comp_) k s.elements == s.elements.length) ||
      cmpApp s.comp_ k
        (s.elements.getD (lowerBound (cmpApp s.comp_) k s.elements) k)) = false) :
    DenseSet.eraseKey cmpApp s k =
      ({ s with elements :=
          s.elements.eraseIdx (lowerBound (cmpApp s.comp_) k s.elements) }, 1) := by
  simp only [DenseSet.eraseKey]
  rw [if_neg (by rw [hcond]; simp)]

/-- C5: erase by key returns `0` and leaves the set (elements, comparator and
allocator) completely unchanged when no element equivalent to the key is
present, and removes exactly the equivalent element and returns `1` when one
is present. -/
theorem c5_erase_key_spec (s : DenseSet α C A) (k : α)
    (htrans : ∀ a b d : α, cmpApp s.comp_ a b = true → cmpApp s.comp_ b d = true →
      cmpApp s.comp_ a d = true)
    (hsplit : ∀ a b d : α, cmpApp s.comp_ a b = true →
      cmpApp s.comp_ a d = true ∨ cmpApp s.comp_ d b = true)
    (hord : Ordered (cmpApp s.comp_) s.elements) :
    ((∀ i, i < s.elements.length →
        cmpApp s.comp_ (s.elements.getD i k) k = true ∨
          cmpApp s.comp_ k (s.elements.getD i k) = true) →
      DenseSet.eraseKey cmpApp s k = (s, 0)) ∧
    (∀ j, j < s.elements.length →
      cmpApp s.comp_ (s.elements.getD j k) k = false →
      cmpApp s.comp_ k (s.elements.getD j k) = false →
      (DenseSet.eraseKey cmpApp s k).1.elements = s.elements.eraseIdx j ∧
        (DenseSet.eraseKey cmpApp s k).2 = 1 ∧
        (DenseSet.eraseKey cmpApp s k).1.comp_ = s.comp_ ∧
        (DenseSet.eraseKey cmpApp s k).1.alloc = s.alloc) := by
  have hp := lowerBound_le_length (cmpApp s.comp_) k s.elements
  constructor
  · intro habsent
    by_cases hend : lowerBound (cmpApp s.comp_) k s.elements = s.elements.length
    · exact eraseKey_guard_true cmpApp s k (by rw [hend]; simp)
    · have hplen : lowerBound (cmpApp s.comp_) k s.elements < s.elements.length := by
        omega
      have h1 := lowerBound_not_lt (cmpApp s.comp_) k k s.elements hplen
      have h2 := habsent _ hplen
      rcases h2 with h2 | h2
      · exact absurd h2 (by rw [h1]; simp)
      · refine eraseKey_guard_true cmpApp s k ?_
        rw [Bool.or_eq_true_iff]
        exact Or.inr h2
  · intro j hj hj1 hj2
    have hple : lowerBound (cmpApp s.comp_) k s.elements ≤ j := by
      by_contra hgt
      have hlt := lt_of_lt_lowerBound (cmpApp s.comp_) k k s.elements j (by omega)
      rw [hj1] at hlt
      exact Bool.false_ne_true hlt
    have hpj : lowerBound (cmpApp s.comp_) k s.elements = j := by
      by_contra hne
      have hplt : lowerBound (cmpApp s.comp_) k s.elements < j := by omega
      have hlt := ordered_getD_lt htrans hord k k
        (lowerBound (cmpApp s.comp_) k s.elements) j hplt hj
      rcases hsplit _ _ _ hlt with h2 | h2
      · have h3 := lowerBound_not_lt (cmpApp s.comp_) k k s.elements (by omega)
        rw [h3] at h2
        exact Bool.false_ne_true h2
      · rw [hj2] at h2
        exact Bool.false_ne_true h2
    have hcond : ((lowerBound (cmpApp s.comp_) k s.elements == s.elements.length) ||
        cmpApp s.comp_ k
          (s.elements.getD (lowerBound (cmpApp s.comp_) k s.elements) k)) = false := by
      rw [Bool.or_eq_false_iff]
      refine ⟨?_, ?_⟩
      · rw [Bool.eq_false_iff]
        intro hbeq
        have : lowerBound (cmpApp s.comp_) k s.elements = s.elements.length := by
          simpa using hbeq
        omega
      · rw [hpj]
        exact hj2
    rw [eraseKey_guard_false cmpApp s k hcond, hpj]
    exact ⟨rfl, rfl, rfl, rfl⟩

/-- Witness for C5 at a concrete set and key. -/
theorem c5_witness :
    Ordered (fun a b : Fin 4 => decide (a < b)) [0, 2, 3] ∧
    (DenseSet.eraseKey (fun _ : Unit => fun a b : Fin 4 => decide (a < b))
      (DenseSet.mk [0, 2, 3] () ()) 2).1.elements = [0, 3] ∧
    (DenseSet.eraseKey (fun _ : Unit => fun a b : Fin 4 => decide (a < b))
      (DenseSet.mk [0, 2, 3] () ()) 2).2 = 1 ∧
    (DenseSet.eraseKey (fun _ : Unit => fun a b : Fin 4 => decide (a < b))
      (DenseSet.mk [0, 2, 3] () ()) 2).1.comp_ = () ∧
    (DenseSet.eraseKey (fun _ : Unit => fun a b : Fin 4 => decide (a < b))
      (DenseSet.mk [0, 2, 3] () ()) 2).1.alloc = () := by
  have h := c5_erase_key_spec (fun _ : Unit => fun a b : Fin 4 => decide (a < b))
    (DenseSet.mk [0, 2, 3] () ()) 2 (by decide) (by decide) (by simp)
  have h2 := h.2 1 (by decide) (by decide) (by decide)
  exact ⟨by simp, h2.1.trans (by decide), h2.2.1, h2.2.2.1, h2.2.2.2⟩

/-- C6: `find` returns the lower-bound position when that position is
dereferenceable and holds an element not greater than the key (which is then
equivalent to the key, since a lower-bound element is never less than the
key), and the end sentinel otherwise; `contains` (implemented by binary
search) is true exactly when `find` is not the end sentinel; `count` is
always 0 or 1, and is 1 exactly when `contains` holds. -/
theorem c6_find_contains_count (s : DenseSet α C A) (k : α)
    (hord : Ordered (cmpApp s.comp_) s.elements) :
    ((DenseSet.lower_bound cmpApp s k < s.elements.length ∧
        cmpApp s.comp_ k (s.elements.getD (DenseSet.lower_bound cmpApp s k) k) = false) →
      DenseSet.find cmpApp s k = DenseSet.lower_bound cmpApp s k ∧
        cmpApp s.comp_ (s.elements.getD (DenseSet.lower_bound cmpApp s k) k) k = false) ∧
    (¬(DenseSet.lower_bound cmpApp s k < s.elements.length ∧
        cmpApp s.comp_ k (s.elements.getD (DenseSet.lower_bound cmpApp s k) k) = false) →
      DenseSet.find cmpApp s k = s.elements.length) ∧
    (DenseSet.contains cmpApp s k = true ↔
      DenseSet.find cmpApp s k ≠ s.elements.length) ∧
    (DenseSet.count cmpApp s k = 0 ∨ DenseSet.count cmpApp s k = 1) ∧
    (DenseSet.count cmpApp s k = 1 ↔ DenseSet.contains cmpApp s k = true) := by
  have hp := lowerBound_le_length (cmpApp s.comp_) k s.elements
  by_cases hcase : DenseSet.lower_bound cmpApp s k < s.elements.length ∧
      cmpApp s.comp_ k (s.elements.getD (DenseSet.lower_bound cmpApp s k) k) = false
  · obtain ⟨hlt, hnl⟩ := hcase
    simp only [DenseSet.lower_bound] at hlt hnl
    have hcond : ((lowerBound (cmpApp s.comp_) k s.elements == s.elements.length) ||
        cmpApp s.comp_ k
          (s.elements.getD (lowerBound (cmpApp s.comp_) k s.elements) k)) = false := by
      rw [Bool.or_eq_false_iff]
      refine ⟨?_, hnl⟩
      rw [Bool.eq_false_iff]
      intro hbeq
      have : lowerBound (cmpApp s.comp_) k s.elements = s.elements.length := by
        simpa using hbeq
      omega
    have hfind : DenseSet.find cmpApp s k =
        lowerBound (cmpApp s.comp_) k s.elements := by
      simp only [DenseSet.find]
      rw [if_neg (by rw [hcond]; simp)]
    have hcont : DenseSet.contains cmpApp s k = true := by
      simp only [DenseSet.contains, binarySearch]
      rw [Bool.and_eq_true]
      refine ⟨by simpa using hlt, by rw [hnl]; rfl⟩
    refine ⟨fun _ => ⟨hfind, lowerBound_not_lt _ k k s.elements hlt⟩,
      fun hno => absurd ⟨by simpa using hlt, hnl⟩ hno, ?_, ?_, ?_⟩
    · rw [hcont, hfind]
      simp
      omega
    · right
      simp [DenseSet.count, hcont]
    · simp [DenseSet.count, hcont]
  · have hcond : ((lowerBound (cmpApp s.comp_) k s.elements == s.elements.length) ||
        cmpApp s.comp_ k
          (s.elements.getD (lowerBound (cmpApp s.comp_) k s.elements) k)) = true := by
      rw [Bool.or_eq_true_iff]
      push_neg at hcase
      by_cases hend : lowerBound (cmpApp s.comp_) k s.elements = s.elements.length
      · exact Or.inl (by simpa using hend)
      · have hlt : lowerBound (cmpApp s.comp_) k s.elements < s.elements.length := by
          omega
        have h2 := hcase (by simpa [DenseSet.lower_bound] using hlt)
        simp only [DenseSet.lower_bound] at h2
        exact Or.inr (by simpa using h2)
    have hfind : DenseSet.find cmpApp s k = s.elements.length := by
      simp only [DenseSet.find]
      rw [if_pos hcond]
    have hcont : DenseSet.contains cmpApp s k = false := by
      simp only [DenseSet.contains, binarySearch]
      rw [Bool.and_eq_false_iff]
      rcases Bool.or_eq_true_iff.mp hcond with h1 | h1
      · left
        have he : lowerBound (cmpApp s.comp_) k s.elements = s.elements.length := by
          simpa using h1
        rw [decide_eq_false_iff_not]
        omega
      · right
        rw [h1]
        rfl
    refine ⟨fun hyes => absurd hyes hcase, fun _ => hfind, ?_, ?_, ?_⟩
    · rw [hcont, hfind]
      simp
    · left
      simp [DenseSet.count, hcont]
    · simp [DenseSet.count, hcont]

/-- Witness for C6 at a concrete set and key. -/
theorem c6_witness :
    Ordered (fun a b : Fin 4 => decide (a < b)) [1, 3] ∧
    DenseSet.find (fun _ : Unit => fun a b : Fin 4 => decide (a < b))
      (DenseSet.mk [1, 3] () ()) 3 = 1 ∧
    DenseSet.contains (fun _ : Unit => fun a b : Fin 4 => decide (a < b))
      (DenseSet.mk [1, 3] () ()) 3 = true ∧
    DenseSet.count (fun _ : Unit => fun a b : Fin 4 => decide (a < b))
      (DenseSet.mk [1, 3] () ()) 3 = 1 := by
  have h := c6_find_contains_count (fun _ : Unit => fun a b : Fin 4 => decide (a < b))
    (DenseSet.mk [1, 3] () ()) 3 (by simp)
  have hlb1 : DenseSet.lower_bound (fun _ : Unit => fun a b : Fin 4 => decide (a < b))
      (DenseSet.mk [1, 3] () ()) 3 = 1 := by decide
  have hfind := (h.1 (by decide)).1.trans hlb1
  have hcont := (h.2.2.1).mpr (by rw [hfind]; decide)
  exact ⟨by simp, hfind, hcont, (h.2.2.2.2).mpr hcont⟩

/-- C7: `equal_range` returns the pair of `lower_bound` and `upper_bound`;
the half-open range they delimit contains at most one element
(`ub ≤ lb + 1`, and `lb ≤ ub`), and when no element equivalent to the key is
present the two bounds coincide. -/
theorem c7_equal_range_spec (s : DenseSet α C A) (k : α)
    (hirr : ∀ a : α, cmpApp s.comp_ a a = false)
    (htrans : ∀ a b d : α, cmpApp s.comp_ a b = true → cmpApp s.comp_ b d = true →
      cmpApp s.comp_ a d = true)
    (hsplit : ∀ a b d : α, cmpApp s.comp_ a b = true →
      cmpApp s.comp_ a d = true ∨ cmpApp s.comp_ d b = true)
    (hord : Ordered (cmpApp s.comp_) s.elements) :
    DenseSet.equal_range cmpApp s k =
      (DenseSet.lower_bound cmpApp s k, DenseSet.upper_bound cmpApp s k) ∧
    DenseSet.lower_bound cmpApp s k ≤ DenseSet.upper_bound cmpApp s k ∧
    DenseSet.upper_bound cmpApp s k ≤ DenseSet.lower_bound cmpApp s k + 1 ∧
    ((∀ i, i < s.elements.length →
        cmpApp s.comp_ (s.elements.getD i k) k = true ∨
          cmpApp s.comp_ k (s.elements.getD i k) = true) →
      DenseSet.upper_bound cmpApp s k = DenseSet.lower_bound cmpApp s k) := by
  have hlb := lowerBound_le_length (cmpApp s.comp_) k s.elements
  have hub := upperBound_le_length (cmpApp s.comp_) k s.elements
  simp only [DenseSet.lower_bound, DenseSet.upper_bound]
  have hle : lowerBound (cmpApp s.comp_) k s.elements ≤
      upperBound (cmpApp s.comp_) k s.elements := by
    by_contra hgt
    push_neg at hgt
    have h1 := upperBound_lt (cmpApp s.comp_) k k s.elements (by omega)
    have h2 := lt_of_lt_lowerBound (cmpApp s.comp_) k k s.elements
      (upperBound (cmpApp s.comp_) k s.elements) hgt
    have h3 := htrans _ _ _ h1 h2
    rw [hirr k] at h3
    exact Bool.false_ne_true h3
  refine ⟨rfl, hle, ?_, ?_⟩
  · by_contra hgt
    push_neg at hgt
    have hl1 : lowerBound (cmpApp s.comp_) k s.elements + 1 < s.elements.length := by
      omega
    have hadj := ordered_getD_lt htrans hord k k
      (lowerBound (cmpApp s.comp_) k s.elements)
      (lowerBound (cmpApp s.comp_) k s.elements + 1) (by omega) hl1
    rcases hsplit _ _ _ hadj with h2 | h2
    · have h3 := lowerBound_not_lt (cmpApp s.comp_) k k s.elements (by omega)
      rw [h3] at h2
      exact Bool.false_ne_true h2
    · have h3 := not_lt_of_lt_upperBound (cmpApp s.comp_) k k s.elements
        (lowerBound (cmpApp s.comp_) k s.elements + 1) (by omega)
      rw [h3] at h2
      exact Bool.false_ne_true h2
  · intro habsent
    by_contra hne
    have hlt : lowerBound (cmpApp s.comp_) k s.elements <
        upperBound (cmpApp s.comp_) k s.elements := by omega
    have h1 := lowerBound_not_lt (cmpApp s.comp_) k k s.elements (by omega)
    have h2 := not_lt_of_lt_upperBound (cmpApp s.comp_) k k s.elements
      (lowerBound (cmpApp s.comp_) k s.elements) hlt
    rcases habsent (lowerBound (cmpApp s.comp_) k s.elements) (by omega) with h3 | h3
    · rw [h1] at h3
      exact Bool.false_ne_true h3
    · rw [h2] at h3
      exact Bool.false_ne_true h3

/-- Witness for C7 at a concrete set and an absent key. -/
theorem c7_witness :
    Ordered (fun a b : Fin 4 => decide (a < b)) [0, 2, 3] ∧
    DenseSet.equal_range (fun _ : Unit => fun a b : Fin 4 => decide (a < b))
      (DenseSet.mk [0, 2, 3] () ()) 1 =
      (DenseSet.lower_bound (fun _ : Unit => fun a b : Fin 4 => decide (a < b))
        (DenseSet.mk [0, 2, 3] () ()) 1,
       DenseSet.upper_bound (fun _ : Unit => fun a b : Fin 4 => decide (a < b))
        (DenseSet.mk [0, 2, 3] () ()) 1) ∧
    DenseSet.upper_bound (fun _ : Unit => fun a b : Fin 4 => decide (a < b))
      (DenseSet.mk [0, 2, 3] () ()) 1 =
      DenseSet.lower_bound (fun _ : Unit => fun a b : Fin 4 => decide (a < b))
        (DenseSet.mk [0, 2, 3] () ()) 1 := by
  have h := c7_equal_range_spec (fun _ : Unit => fun a b : Fin 4 => decide (a < b))
    (DenseSet.mk [0, 2, 3] () ()) 1 (by decide) (by decide) (by decide) (by simp)
  exact ⟨by simp, h.1, h.2.2.2 (by decide)⟩


/-- C4 counterexample: after plain move construction from a set whose
comparator differs from the default one, the moved-from set's comparator is
its original comparator (the constructor pair swaps it twice), not a
default-constructed one. -/
theorem c4_counterexample :
    (DenseSet.moveCtor (0 : Nat) (0 : Nat)
      (DenseSet.mk ([0] : List (Fin 2)) (7 : Nat) (0 : Nat))).2.comp_ = 7 ∧
    (7 : Nat) ≠ 0 ∧
    (DenseSet.moveCtor (0 : Nat) (0 : Nat)
      (DenseSet.mk ([0] : List (Fin 2)) (7 : Nat) (0 : Nat))).2.elements = [] := by
  decide

/-- C4 amended: the moved-from set is empty after move-with-allocator
construction with the source's own allocator, after plain move construction
when the source's allocator equals a default-constructed one, and after move
assignment.  Its comparator is default-constructed only after
move-with-allocator construction; after plain move construction (which swaps
the comparator twice, handing the default to the destination) and after move
assignment the moved-from set keeps its pre-move comparator. -/
theorem c4_amended_move_semantics [DecidableEq A] (a t : DenseSet α C A)
    (defaultC : C) (defaultA : A) :
    (DenseSet.moveCtorAlloc defaultC a a.alloc).2.elements = [] ∧
    (DenseSet.moveCtorAlloc defaultC a a.alloc).2.comp_ = defaultC ∧
    (a.alloc = defaultA → (DenseSet.moveCtor defaultC defaultA a).2.elements = []) ∧
    (DenseSet.moveCtor defaultC defaultA a).2.comp_ = a.comp_ ∧
    (DenseSet.moveCtor defaultC defaultA a).1.comp_ = defaultC ∧
    (DenseSet.moveAssign t a).2.elements = [] ∧
    (DenseSet.moveAssign t a).2.comp_ = a.comp_ := by
  refine ⟨?_, rfl, ?_, rfl, rfl, rfl, rfl⟩
  · simp [DenseSet.moveCtorAlloc]
  · intro h
    simp [DenseSet.moveCtor, DenseSet.moveCtorAlloc, h]

/-- Witness for the amended C4 at a concrete set. -/
theorem c4_witness :
    (DenseSet.moveCtorAlloc (0 : Nat)
      (DenseSet.mk ([1] : List (Fin 2)) (7 : Nat) (3 : Nat)) 3).2.elements = [] ∧
    (DenseSet.moveCtorAlloc (0 : Nat)
      (DenseSet.mk ([1] : List (Fin 2)) (7 : Nat) (3 : Nat)) 3).2.comp_ = 0 ∧
    (DenseSet.moveCtor (0 : Nat) (3 : Nat)
      (DenseSet.mk ([1] : List (Fin 2)) (7 : Nat) (3 : Nat))).2.elements = [] ∧
    (DenseSet.moveCtor (0 : Nat) (3 : Nat)
      (DenseSet.mk ([1] : List (Fin 2)) (7 : Nat) (3 : Nat))).2.comp_ = 7 := by
  have h := c4_amended_move_semantics
    (DenseSet.mk ([1] : List (Fin 2)) (7 : Nat) (3 : Nat))
    (DenseSet.mk [] 0 0) 0 3
  exact ⟨h.1, h.2.1, h.2.2.1 rfl, h.2.2.2.1⟩

/-- C8 counterexample: the free `swap` function does not exchange the
comparators — after `swap(a, b)`, whose body only swaps the vector bases,
the first set keeps its own comparator, which differs from `b`'s pre-swap
comparator. -/
theorem c8_counterexample :
    (DenseSet.freeSwap (DenseSet.mk ([0] : List (Fin 2)) (1 : Nat) (0 : Nat))
      (DenseSet.mk [1] 2 0)).1.comp_ = 1 ∧
    (DenseSet.mk ([1] : List (Fin 2)) (2 : Nat) (0 : Nat)).comp_ = 2 ∧
    (1 : Nat) ≠ 2 := by
  decide

/-- C8 amended: the member `swap` exchanges both the element buffers and the
comparators of the two sets; the free `swap` function exchanges only the
element buffers and leaves each set's comparator in place. -/
theorem c8_amended_swap (a b : DenseSet α C A) :
    (DenseSet.memberSwap a b).1.elements = b.elements ∧
    (DenseSet.memberSwap a b).1.comp_ = b.comp_ ∧
    (DenseSet.memberSwap a b).2.elements = a.elements ∧
    (DenseSet.memberSwap a b).2.comp_ = a.comp_ ∧
    (DenseSet.freeSwap a b).1.elements = b.elements ∧
    (DenseSet.freeSwap a b).1.comp_ = a.comp_ ∧
    (DenseSet.freeSwap a b).2.elements = a.elements ∧
    (DenseSet.freeSwap a b).2.comp_ = b.comp_ :=
  ⟨rfl, rfl, rfl, rfl, rfl, rfl, rfl, rfl⟩

/-- C10: plain move construction delegates to the move-with-allocator form
with a default-constructed allocator and its body swaps the comparator a
second time, so the new set ends up with a default-constructed allocator and
a default-constructed comparator while the source keeps its pre-move
comparator; when the source's allocator differs from the default one, the
new set's allocator differs from the source's. -/
theorem c10_plain_move_ctor [DecidableEq A] (a : DenseSet α C A)
    (defaultC : C) (defaultA : A) :
    (DenseSet.moveCtor defaultC defaultA a).1.alloc = defaultA ∧
    (DenseSet.moveCtor defaultC defaultA a).1.comp_ = defaultC ∧
    (DenseSet.moveCtor defaultC defaultA a).2.comp_ = a.comp_ ∧
    (a.alloc ≠ defaultA → (DenseSet.moveCtor defaultC defaultA a).1.alloc ≠ a.alloc) :=
  ⟨rfl, rfl, rfl, fun h heq => h heq.symm⟩

/-- Witness for C10 at a concrete set. -/
theorem c10_witness :
    (DenseSet.moveCtor (0 : Nat) (0 : Nat)
      (DenseSet.mk ([1] : List (Fin 2)) (7 : Nat) (3 : Nat))).1.alloc = 0 ∧
    (DenseSet.moveCtor (0 : Nat) (0 : Nat)
      (DenseSet.mk ([1] : List (Fin 2)) (7 : Nat) (3 : Nat))).1.comp_ = 0 ∧
    (DenseSet.moveCtor (0 : Nat) (0 : Nat)
      (DenseSet.mk ([1] : List (Fin 2)) (7 : Nat) (3 : Nat))).2.comp_ = 7 ∧
    (DenseSet.moveCtor (0 : Nat) (0 : Nat)
      (DenseSet.mk ([1] : List (Fin 2)) (7 : Nat) (3 : Nat))).1.alloc ≠ 3 := by
  have h := c10_plain_move_ctor
    (DenseSet.mk ([1] : List (Fin 2)) (7 : Nat) (3 : Nat)) 0 0
  exact ⟨h.1, h.2.1, h.2.2.1, h.2.2.2 (by decide)⟩

theorem zip_self_eq : ∀ (xs : List α) (p : α × α), p ∈ xs.zip xs → p.1 = p.2 := by
  intro xs
  induction xs with
  | nil => simp
  | cons x xs ih =>
    intro p hp
    simp only [List.zip_cons_cons, List.mem_cons] at hp
    rcases hp with hp | hp
    · rw [hp]
    · exact ih p hp

theorem zip_all_eq : ∀ (xs ys : List α), xs.length = ys.length →
    (∀ p ∈ xs.zip ys, p.1 = p.2) → xs = ys := by
  intro xs
  induction xs with
  | nil =>
    intro ys h _
    symm
    simpa [List.length_eq_zero] using h.symm
  | cons x xs ih =>
    intro ys h hall
    cases ys with
    | nil => simp at h
    | cons y ys2 =>
      have hx : x = y := hall (x, y) (by simp)
      have hrest := ih ys2 (by simpa using h) (fun p hp => hall p (by simp [hp]))
      rw [hx, hrest]

theorem dsEq_iff [DecidableEq α] (a b : DenseSet α C A) :
    DenseSet.dsEq a b = true ↔ a.elements = b.elements := by
  simp only [DenseSet.dsEq, Bool.and_eq_true, List.all_eq_true, beq_iff_eq,
    decide_eq_true_eq]
  constructor
  · rintro ⟨hlen, hall⟩
    exact zip_all_eq a.elements b.elements hlen hall
  · intro heq
    rw [heq]
    exact ⟨rfl, zip_self_eq b.elements⟩

theorem eq_iff_len_getD : ∀ xs ys : List α,
    xs = ys ↔ (xs.length = ys.length ∧
      ∀ (i : Nat) (d : α), i < xs.length → xs.getD i d = ys.getD i d) := by
  intro xs
  induction xs with
  | nil =>
    intro ys
    constructor
    · rintro rfl
      exact ⟨rfl, fun i d hi => rfl⟩
    · rintro ⟨hlen, _⟩
      symm
      simpa [List.length_eq_zero] using hlen.symm
  | cons x xs ih =>
    intro ys
    constructor
    · rintro rfl
      exact ⟨rfl, fun i d hi => rfl⟩
    · rintro ⟨hlen, hall⟩
      cases ys with
      | nil => simp at hlen
      | cons y ys2 =>
        have hx : x = y := by simpa using hall 0 x (by simp)
        have hrest := (ih ys2).mpr ⟨by simpa using hlen,
          fun i d hi => by simpa using hall (i + 1) d (by simpa using hi)⟩
        rw [hx, hrest]

theorem mem_insert_iff (s : DenseSet α C A) (v z : α)
    (hanti : ∀ x y : α, cmpApp s.comp_ x y = false → cmpApp s.comp_ y x = false →
      x = y) :
    z ∈ ((DenseSet.insert cmpApp s v).1).elements ↔ z = v ∨ z ∈ s.elements := by
  have hp := lowerBound_le_length (cmpApp s.comp_) v s.elements
  by_cases hcond : ((lowerBound (cmpApp s.comp_) v s.elements == s.elements.length) ||
      cmpApp s.comp_ v
        (s.elements.getD (lowerBound (cmpApp s.comp_) v s.elements) v)) = true
  · rw [insert_guard_true cmpApp s v hcond]
    exact List.mem_insertIdx hp
  · have hcondf := Bool.eq_false_iff.mpr hcond
    rw [insert_guard_false cmpApp s v hcondf]
    rw [Bool.or_eq_false_iff] at hcondf
    obtain ⟨h1, h2⟩ := hcondf
    have hplen : lowerBound (cmpApp s.comp_) v s.elements < s.elements.length := by
      have hne : lowerBound (cmpApp s.comp_) v s.elements ≠ s.elements.length := by
        intro heq
        rw [heq] at h1
        simp at h1
      omega
    have heq := hanti (s.elements.getD (lowerBound (cmpApp s.comp_) v s.elements) v) v
      (lowerBound_not_lt _ v v _ hplen) h2
    rw [List.getD_eq_getElem _ _ hplen] at heq
    have hmem : v ∈ s.elements := heq ▸ List.getElem_mem hplen
    constructor
    · intro hz
      exact Or.inr hz
    · rintro (rfl | hz)
      · exact hmem
      · exact hz

theorem mem_insertRange_iff (c : C)
    (hanti : ∀ x y : α, cmpApp c x y = false → cmpApp c y x = false → x = y) :
    ∀ (vs : List α) (s : DenseSet α C A), s.comp_ = c → ∀ z : α,
      (z ∈ (DenseSet.insertRange cmpApp s vs).elements ↔
        z ∈ s.elements ∨ z ∈ vs) := by
  intro vs
  induction vs with
  | nil =>
    intro s hc z
    simp [DenseSet.insertRange]
  | cons v vs ih =>
    intro s hc z
    show z ∈ (DenseSet.insertRange cmpApp ((DenseSet.insert cmpApp s v).1) vs).elements ↔ _
    rw [ih _ (by rw [insert_comp, hc]) z,
      mem_insert_iff cmpApp s v z (by rw [hc]; exact hanti)]
    simp only [List.mem_cons]
    tauto

theorem ordered_nodup {lt : α → α → Bool}
    (hirr : ∀ a : α, lt a a = false)
    (htrans : ∀ a b d : α, lt a b = true → lt b d = true → lt a d = true)
    {xs : List α} (hord : Ordered lt xs) : xs.Nodup := by
  have hp := ordered_pairwise htrans hord
  refine hp.imp ?_
  intro a b hab heq
  rw [heq, hirr b] at hab
  exact Bool.false_ne_true hab

/-- C9: `operator==` holds exactly when the two ordered element sequences
have the same length and are element-wise equal in iteration order — the
comparator and allocator fields are never inspected; consequently, when the
comparator is a strict weak ordering whose equivalence is equality of the
values, two sets built by range-inserting permutations of the same
collection of values (with any comparator/allocator objects interpreted by
the same ordering) compare equal. -/
theorem c9_equality_elementwise [DecidableEq α] (a b : DenseSet α C A)
    (c : C) (al al2 : A) (vs vs2 : List α)
    (hirr : ∀ x : α, cmpApp c x x = false)
    (htrans : ∀ x y z : α, cmpApp c x y = true → cmpApp c y z = true →
      cmpApp c x z = true)
    (hanti : ∀ x y : α, cmpApp c x y = false → cmpApp c y x = false → x = y)
    (hperm : vs.Perm vs2) :
    (DenseSet.dsEq a b = true ↔
      (a.elements.length = b.elements.length ∧
        ∀ (i : Nat) (d : α), i < a.elements.length →
          a.elements.getD i d = b.elements.getD i d)) ∧
    DenseSet.dsEq (DenseSet.construct cmpApp c al vs)
      (DenseSet.construct cmpApp c al2 vs2) = true := by
  constructor
  · rw [dsEq_iff]
    exact eq_iff_len_getD a.elements b.elements
  · rw [dsEq_iff]
    have hmem1 := mem_insertRange_iff cmpApp c hanti vs ⟨[], c, al⟩ rfl
    have hmem2 := mem_insertRange_iff cmpApp c hanti vs2 ⟨[], c, al2⟩ rfl
    have hord1 := construct_ordered cmpApp c al vs
    have hord2 := construct_ordered cmpApp c al2 vs2
    have hnd1 := ordered_nodup hirr htrans hord1
    have hnd2 := ordered_nodup hirr htrans hord2
    have hpermc : (DenseSet.construct cmpApp c al vs : DenseSet α C A).elements.Perm
        (DenseSet.construct cmpApp c al2 vs2 : DenseSet α C A).elements := by
      rw [List.perm_ext_iff_of_nodup hnd1 hnd2]
      intro z
      rw [show (DenseSet.construct cmpApp c al vs : DenseSet α C A).elements =
          (DenseSet.insertRange cmpApp ⟨[], c, al⟩ vs).elements from rfl,
        show (DenseSet.construct cmpApp c al2 vs2 : DenseSet α C A).elements =
          (DenseSet.insertRange cmpApp ⟨[], c, al2⟩ vs2).elements from rfl,
        hmem1 z, hmem2 z]
      constructor
      · rintro (hz | hz)
        · simp at hz
        · exact Or.inr (hperm.mem_iff.mp hz)
      · rintro (hz | hz)
        · simp at hz
        · exact Or.inr (hperm.mem_iff.mpr hz)
    have : IsAntisymm α (fun x y => cmpApp c x y = true) := ⟨by
      intro x y hxy hyx
      have hxx := htrans x y x hxy hyx
      rw [hirr x] at hxx
      exact absurd hxx Bool.false_ne_true⟩
    exact List.eq_of_perm_of_sorted hpermc
      (ordered_pairwise htrans hord1)
      (ordered_pairwise htrans hord2)

/-- Witness for C9 at two concrete sets built from permutations of the same
values. -/
theorem c9_witness :
    (List.Perm ([1, 3, 2] : List (Fin 4)) [2, 1, 3]) ∧
    DenseSet.dsEq
      (DenseSet.construct (fun _ : Unit => fun a b : Fin 4 => decide (a < b)) () ()
        [1, 3, 2])
      (DenseSet.construct (fun _ : Unit => fun a b : Fin 4 => decide (a < b)) () ()
        [2, 1, 3]) = true := by
  have h := c9_equality_elementwise (fun _ : Unit => fun a b : Fin 4 => decide (a < b))
    (DenseSet.mk ([] : List (Fin 4)) () ()) (DenseSet.mk [] () ()) () () ()
    [1, 3, 2] [2, 1, 3] (by decide) (by decide) (by decide) (by decide)
  exact ⟨by decide, h.2⟩

end Absl
